import Mathlib

/-!
# Formal model of the shoe-inventory CLI (`inventory.py`)

This file gives a shallow embedding of the shoe-inventory command-line
program into Lean 4 and proves properties of its operations: loading the
backing file, interactive capture of a new shoe, restocking the
lowest-quantity shoe, searching by code, and the menu dispatch.

Python strings are modelled as `List Char` (`Str`), Python `int` as `Int`,
the backing file as the full file content (a `Str`), and interactive input
as a list of input strings consumed by the prompt loops.  Fallible code is
modelled with `Option`/`Except`: a Python exception becomes an
`Except.error`, and an interactive loop that runs out of scripted input
yields `none`.
-/

/-- Python strings, modelled as lists of characters. -/
abbrev Str := List Char

/-- Python `str.strip()`: remove leading and trailing whitespace. -/
def pyStrip (cs : Str) : Str :=
  ((cs.dropWhile Char.isWhitespace).reverse.dropWhile Char.isWhitespace).reverse

/-- Python `str.lower()` (ASCII model). -/
def pyLower (cs : Str) : Str := cs.map Char.toLower

/-- Python `str.upper()` (ASCII model). -/
def pyUpper (cs : Str) : Str := cs.map Char.toUpper

/-- Helper for `pyTitle`: the `Bool` says whether the previous character
was alphabetic. -/
def pyTitleAux : Bool → Str → Str
  | _, [] => []
  | prevAlpha, c :: rest =>
    (if c.isAlpha then (if prevAlpha then c.toLower else c.toUpper) else c)
      :: pyTitleAux c.isAlpha rest

/-- Python `str.title()` (ASCII model): first letter of each word
uppercased, the rest lowercased. -/
def pyTitle (cs : Str) : Str := pyTitleAux false cs

/-- ASCII decimal digit test (the digits accepted by Python `int`). -/
def isDigitCh (c : Char) : Bool :=
  c == '0' || c == '1' || c == '2' || c == '3' || c == '4' ||
  c == '5' || c == '6' || c == '7' || c == '8' || c == '9'

/-- Numeric value of a digit string via the usual left fold. -/
def foldlDigits (cs : Str) : Nat :=
  cs.foldl (fun a c => 10 * a + (c.toNat - 48)) 0

/-- Value of a nonempty all-digit string, `none` otherwise. -/
def digitsVal? (cs : Str) : Option Nat :=
  if !cs.isEmpty && cs.all isDigitCh then some (foldlDigits cs) else none

/-- Python `int(s)`: strip whitespace, optional sign, decimal digits. -/
def pyInt? (s : Str) : Option Int :=
  match pyStrip s with
  | [] => none
  | c :: rest =>
    if c = '+' then (digitsVal? rest).map Int.ofNat
    else if c = '-' then (digitsVal? rest).map (fun n => -(n : Int))
    else (digitsVal? (c :: rest)).map Int.ofNat

/-- Python `str.split(sep)` for a single-character separator. -/
def splitOnChar (sep : Char) : Str → List Str
  | [] => [[]]
  | c :: cs =>
    match splitOnChar sep cs with
    | [] => [[]]
    | f :: rest => if c = sep then [] :: f :: rest else (c :: f) :: rest

/-- Python file-line iteration on a full file content: split on `'\n'`,
with no empty final line produced by a trailing newline. -/
def pyLines (cs : Str) : List Str :=
  let ps := splitOnChar '\n' cs
  if ps.getLast? = some [] then ps.dropLast else ps

/-- The decimal digit character for `n < 10`. -/
def digitChar (n : Nat) : Char :=
  ['0', '1', '2', '3', '4', '5', '6', '7', '8', '9'].getD n '0'

/-- Decimal rendering of a natural number, with explicit fuel so that the
kernel can evaluate it. -/
def natDigitsAux : Nat → Nat → Str
  | 0, _ => []
  | fuel + 1, n =>
    if n < 10 then [digitChar n]
    else natDigitsAux fuel (n / 10) ++ [digitChar (n % 10)]

/-- Decimal rendering of a natural number (as Python `str` of an `int`). -/
def natDigits (n : Nat) : Str := natDigitsAux (n + 1) n

/-- Python `str(i)` for an integer. -/
def intStr (i : Int) : Str :=
  if i < 0 then '-' :: natDigits i.natAbs else natDigits i.toNat

/-! ## Data model: `Shoe` and the store (`inventory.py`, class `Shoe`) -/

/-- One inventory record: `Shoe(country, code, product, cost, quantity)`.
Python strings become `Str`, Python `int` becomes `Int`. -/
structure Shoe where
  country : Str
  code : Str
  product : Str
  cost : Int
  quantity : Int
deriving DecidableEq, Repr

/-- Python exceptions relevant to this program. -/
inductive PyErr where
  | indexError
  | valueError
  | stopIteration
deriving DecidableEq, Repr

instance exceptDecEq {ε α : Type} [DecidableEq ε] [DecidableEq α] :
    DecidableEq (Except ε α) := fun x y =>
  match x, y with
  | .error e, .error f =>
    if h : e = f then .isTrue (by rw [h]) else .isFalse (by simp [h])
  | .error _, .ok _ => .isFalse (by simp)
  | .ok _, .error _ => .isFalse (by simp)
  | .ok a, .ok b =>
    if h : a = b then .isTrue (by rw [h]) else .isFalse (by simp [h])

/-! ## Loader (`read_shoes_data`) and file writer (`re_stock`'s write) -/

/-- The fixed header line written by `re_stock`. -/
def headerLine : Str := "Country,Code,Product,Cost,Quantity".toList

/-- `line_split_up[i]`: Python list indexing raises `IndexError` when out
of range. -/
def getField (fs : List Str) (i : Nat) : Except PyErr Str :=
  match fs[i]? with
  | some f => .ok f
  | none => .error .indexError

/-- `int(s)` as an expression that raises `ValueError` on bad input. -/
def pyIntE (s : Str) : Except PyErr Int :=
  match pyInt? s with
  | some n => .ok n
  | none => .error .valueError

/-- The loop body of `read_shoes_data`: strip the line, split on commas,
take the five fields in source order (`[0]`..`[3]`, `int([3])`, `[4]`,
`int([4])`), and build the `Shoe`. -/
def parseLine (l : Str) : Except PyErr Shoe :=
  let fs := splitOnChar ',' (pyStrip l)
  match getField fs 0 with
  | .error e => .error e
  | .ok country =>
  match getField fs 1 with
  | .error e => .error e
  | .ok code =>
  match getField fs 2 with
  | .error e => .error e
  | .ok product =>
  match getField fs 3 with
  | .error e => .error e
  | .ok costS =>
  match pyIntE costS with
  | .error e => .error e
  | .ok cost =>
  match getField fs 4 with
  | .error e => .error e
  | .ok qtyS =>
  match pyIntE qtyS with
  | .error e => .error e
  | .ok qty => .ok ⟨country, code, product, cost, qty⟩

/-- The `for line in file` loop of `read_shoes_data`: parse each data line
in order; the first exception aborts the load. -/
def parseLines : List Str → Except PyErr (List Shoe)
  | [] => .ok []
  | l :: ls =>
    match parseLine l with
    | .error e => .error e
    | .ok s =>
      match parseLines ls with
      | .error e => .error e
      | .ok rest => .ok (s :: rest)

/-- `read_shoes_data`: `none` content models a missing file
(`FileNotFoundError` is caught and the store stays empty); otherwise
`next(file)` skips the header (raising `StopIteration` on an empty file)
and the remaining lines are parsed. -/
def read_shoes_data (content : Option Str) : Except PyErr (List Shoe) :=
  match content with
  | none => .ok []
  | some cs =>
    match pyLines cs with
    | [] => .error .stopIteration
    | _header :: rest => parseLines rest

/-- One serialized line of `re_stock`'s write:
`f"{country},{code},{product},{cost},{quantity}"`. -/
def serializeLine (s : Shoe) : Str :=
  s.country ++ (',' :: (s.code ++ (',' :: (s.product ++ (',' ::
    (intStr s.cost ++ (',' :: intStr s.quantity)))))))

/-- Join lines into a file content, each line followed by `'\n'`, as the
`file.write` calls of `re_stock` do. -/
def mkFile : List Str → Str
  | [] => []
  | l :: ls => l ++ '\n' :: mkFile ls

/-- The file content written by `re_stock`: header plus one line per shoe. -/
def write_inventory (store : List Shoe) : Str :=
  mkFile (headerLine :: store.map serializeLine)

/-- The record a valid data line describes: the first five comma-separated
fields of the stripped line, with fields four and five coerced to `Int`. -/
def lineShoe (l : Str) : Shoe :=
  let fs := splitOnChar ',' (pyStrip l)
  ⟨fs.getD 0 [], fs.getD 1 [], fs.getD 2 [],
    (pyInt? (fs.getD 3 [])).getD 0, (pyInt? (fs.getD 4 [])).getD 0⟩

/-- A data line the loader accepts with exactly five fields. -/
def validDataLine (l : Str) : Bool :=
  let fs := splitOnChar ',' (pyStrip l)
  fs.length == 5 && (pyInt? (fs.getD 3 [])).isSome
    && (pyInt? (fs.getD 4 [])).isSome

/-! ## Interactive capture (`capture_shoes`, `cancel_capture`) -/

/-- `cancel_capture`: the user cancelled iff the input lowercases to "x". -/
def cancel_capture (u : Str) : Bool := pyLower u == ['x']

/-- Python `str.isalpha()`: nonempty and all alphabetic. -/
def pyIsAlpha (cs : Str) : Bool := !cs.isEmpty && cs.all Char.isAlpha

/-- `re.fullmatch(r"SKU\d+", code)`: literal `SKU` then one or more
digits. -/
def isSKU : Str → Bool
  | 'S' :: 'K' :: 'U' :: ds => !ds.isEmpty && ds.all isDigitCh
  | _ => false

/-- Normalization of the country/product prompts: `.strip().title()`. -/
def normText (s : Str) : Str := pyTitle (pyStrip s)

/-- Normalization of the code prompt: `.strip().upper()`. -/
def normCode (s : Str) : Str := pyUpper (pyStrip s)

/-- Normalization of the cost/quantity prompts: `.strip()`. -/
def normNum (s : Str) : Str := pyStrip s

/-- Validation of country/product: nonempty and, with spaces removed,
`isalpha()`. -/
def validTextF (v : Str) : Option Str :=
  if !v.isEmpty && pyIsAlpha (v.filter (fun c => !(c == ' '))) then some v
  else none

/-- Validation of the shoe code. -/
def validCodeF (v : Str) : Option Str := if isSKU v then some v else none

/-- Validation of cost/quantity: an integer that is not negative. -/
def validNumF (v : Str) : Option Int :=
  match pyInt? v with
  | some n => if n < 0 then none else some n
  | none => none

/-- Outcome of one field's prompt loop. -/
inductive FieldResult (α : Type) where
  | cancelled : FieldResult α
  | ok : α → List Str → FieldResult α
deriving DecidableEq, Repr

/-- One `while True` prompt loop of `capture_shoes`: normalize the next
input, check the cancel sentinel, validate, and retry on invalid input.
`none` means the scripted input ran out. -/
def promptField {α : Type} (norm : Str → Str) (validate : Str → Option α) :
    List Str → Option (FieldResult α)
  | [] => none
  | s :: rest =>
    let v := norm s
    if cancel_capture v then some .cancelled
    else
      match validate v with
      | some a => some (.ok a rest)
      | none => promptField norm validate rest

/-- `capture_shoes`: prompt for the five fields in order; any cancel
returns the store unchanged; on success append the new `Shoe`. -/
def capture_shoes (store : List Shoe) (inputs : List Str) :
    Option (List Shoe) :=
  match promptField normText validTextF inputs with
  | none => none
  | some .cancelled => some store
  | some (.ok country rest1) =>
  match promptField normCode validCodeF rest1 with
  | none => none
  | some .cancelled => some store
  | some (.ok code rest2) =>
  match promptField normText validTextF rest2 with
  | none => none
  | some .cancelled => some store
  | some (.ok product rest3) =>
  match promptField normNum validNumF rest3 with
  | none => none
  | some .cancelled => some store
  | some (.ok cost rest4) =>
  match promptField normNum validNumF rest4 with
  | none => none
  | some .cancelled => some store
  | some (.ok quantity _rest5) =>
      some (store ++ [⟨country, code, product, cost, quantity⟩])

/-- Whether an interactive add session hits the cancel sentinel: the five
prompt loops of `capture_shoes` run in order and `true` is returned
exactly when the input consumed by one of the five field prompts is the
cancel sentinel (`false` when all five fields validate; sessions that run
out of input return `false` and are the `none` runs of `capture_shoes`). -/
def captureCancelled (inputs : List Str) : Bool :=
  match promptField normText validTextF inputs with
  | none => false
  | some .cancelled => true
  | some (.ok _ rest1) =>
  match promptField normCode validCodeF rest1 with
  | none => false
  | some .cancelled => true
  | some (.ok _ rest2) =>
  match promptField normText validTextF rest2 with
  | none => false
  | some .cancelled => true
  | some (.ok _ rest3) =>
  match promptField normNum validNumF rest3 with
  | none => false
  | some .cancelled => true
  | some (.ok _ rest4) =>
  match promptField normNum validNumF rest4 with
  | none => false
  | some .cancelled => true
  | some (.ok _ _rest5) => false

/-! ## Selection by quantity (`re_stock`, `highest_qty`)

Python's `sorted` is stable, so the head of `sorted(shoe_list,
key=Shoe.get_quantity)` is the earliest shoe of minimal quantity (and with
`reverse=True` the earliest shoe of maximal quantity).  We model the sorts
by stable insertion sort, and also compute the selected shoe's position in
the store, since the in-place mutation in `re_stock` happens at that
position. -/

/-- Stable insertion into an ascending-by-quantity list: the new element
goes before the first element of greater-or-equal quantity. -/
def insertAscQty (x : Shoe) : List Shoe → List Shoe
  | [] => [x]
  | t :: rest =>
    if t.quantity < x.quantity then t :: insertAscQty x rest
    else x :: t :: rest

/-- `sorted(shoe_list, key=Shoe.get_quantity)` (stable, ascending). -/
def sortAscQty : List Shoe → List Shoe
  | [] => []
  | s :: rest => insertAscQty s (sortAscQty rest)

/-- Stable insertion into a descending-by-quantity list. -/
def insertDescQty (x : Shoe) : List Shoe → List Shoe
  | [] => [x]
  | t :: rest =>
    if x.quantity < t.quantity then t :: insertDescQty x rest
    else x :: t :: rest

/-- `sorted(shoe_list, key=Shoe.get_quantity, reverse=True)` (stable,
descending). -/
def sortDescQty : List Shoe → List Shoe
  | [] => []
  | s :: rest => insertDescQty s (sortDescQty rest)

/-- `re_stock`'s selection: head of the ascending sort. -/
def lowestPick (store : List Shoe) : Option Shoe := (sortAscQty store).head?

/-- `highest_qty`'s selection: head of the descending sort. -/
def highestPick (store : List Shoe) : Option Shoe := (sortDescQty store).head?

/-- The earliest minimal-quantity shoe together with its index in the
store; this is where the head of the stable ascending sort lives in
`shoe_list`, i.e. the object `re_stock` mutates. -/
def firstMinIdx : List Shoe → Option (Nat × Shoe)
  | [] => none
  | s :: rest =>
    match firstMinIdx rest with
    | none => some (0, s)
    | some (i, m) =>
      if m.quantity < s.quantity then some (i + 1, m) else some (0, s)

/-- The earliest maximal-quantity shoe together with its index. -/
def firstMaxIdx : List Shoe → Option (Nat × Shoe)
  | [] => none
  | s :: rest =>
    match firstMaxIdx rest with
    | none => some (0, s)
    | some (i, m) =>
      if s.quantity < m.quantity then some (i + 1, m) else some (0, s)

/-! ## Restock (`re_stock`) -/

/-- The scan `for i, shoe in enumerate(shoe_list): if shoe.code == code:
... break`: index of the first shoe with the given code. -/
def findCodeIdx (code : Str) : List Shoe → Option Nat
  | [] => none
  | s :: rest =>
    if s.code == code then some 0
    else (findCodeIdx code rest).map (· + 1)

/-- The state change of a confirmed restock with validated amount `a`:
`lowest_stock_shoe.quantity += a` mutates the selected object in place
(position `j` of `shoe_list`), then the loop `shoe_list[i] =
lowest_stock_shoe` overwrites the first entry whose code matches the
selected shoe's code. -/
def restock_apply (store : List Shoe) (a : Int) : List Shoe :=
  match firstMinIdx store with
  | none => store
  | some (j, low) =>
    let low' : Shoe := { low with quantity := low.quantity + a }
    let store1 := store.set j low'
    match findCodeIdx low'.code store1 with
    | none => store1
    | some i => store1.set i low'

/-- The restock-amount prompt loop: raw input lowercasing to "x" cancels
(`some none`), a non-integer or negative input retries, a valid amount is
returned (`some (some a)`); `none` means the scripted input ran out. -/
def restockAmountLoop : List Str → Option (Option Int)
  | [] => none
  | s :: rest =>
    if pyLower s == ['x'] then some none
    else
      match pyInt? s with
      | none => restockAmountLoop rest
      | some n => if n < 0 then restockAmountLoop rest else some (some n)

/-- `re_stock` on a store and file content: indexing `sorted(...)[0]` on an
empty store raises `IndexError`; the confirmation input is accepted only
when it strips and uppercases to "Y" (anything else declines with no
mutation and no write); a confirmed restock runs the amount loop and, on a
valid amount, applies the update and rewrites the whole file. -/
def re_stock (store : List Shoe) (file : Str) (confirm : Str)
    (amounts : List Str) : Option (Except PyErr (List Shoe × Str)) :=
  if store.isEmpty then some (.error .indexError)
  else if pyUpper (pyStrip confirm) = ['Y'] then
    match restockAmountLoop amounts with
    | none => none
    | some none => some (.ok (store, file))
    | some (some a) =>
        let store' := restock_apply store a
        some (.ok (store', write_inventory store'))
  else some (.ok (store, file))

/-! ## Search (`search_shoe`) -/

/-- `search_shoe`: strip and uppercase the entered code, return the first
shoe whose code equals it (the scan with `break`), `none` when no shoe
matches. -/
def search_shoe (store : List Shoe) (inp : Str) : Option Shoe :=
  store.find? (fun s => pyUpper (pyStrip inp) == s.code)

/-! ## Menu loop -/

/-- The scripted interactive inputs an operation may consume. -/
structure Script where
  captureInputs : List Str
  searchInput : Str
  restockConfirm : Str
  restockAmounts : List Str
deriving Repr

/-- Dispatch of one menu selection (the `if`/`elif` chain).  Selections 1
(view), 4 (search), 5 (valuation), 7 (quit) and the invalid-selection
branch neither mutate nor raise; 2 runs `capture_shoes`; 3 runs
`re_stock`; 6 (`highest_qty`) indexes `sorted(...)[0]`, raising
`IndexError` on an empty store. -/
def dispatch (store : List Shoe) (file : Str) (sel : Int) (sc : Script) :
    Option (Except PyErr (List Shoe × Str)) :=
  if sel = 1 then some (.ok (store, file))
  else if sel = 2 then
    (capture_shoes store sc.captureInputs).map (fun st => .ok (st, file))
  else if sel = 3 then re_stock store file sc.restockConfirm sc.restockAmounts
  else if sel = 4 then some (.ok (store, file))
  else if sel = 5 then some (.ok (store, file))
  else if sel = 6 then
    if store.isEmpty then some (.error .indexError)
    else some (.ok (store, file))
  else some (.ok (store, file))

/-- One iteration of the menu loop: the dispatch runs inside
`try ... except ValueError`, so a `ValueError` is caught (message and
re-prompt, state unchanged) while any other exception escapes. -/
def menu_step (store : List Shoe) (file : Str) (sel : Int) (sc : Script) :
    Option (Except PyErr (List Shoe × Str)) :=
  match dispatch store file sel sc with
  | some (.error .valueError) => some (.ok (store, file))
  | r => r

/-! ## Predicates used in the statements -/

/-- A field string that survives the comma-split / line-split round trip. -/
def CleanStr (cs : Str) : Prop := ',' ∉ cs ∧ '\n' ∉ cs

/-- A shoe whose serialized line reloads to the same shoe: no commas or
newlines in the text fields, and the country does not start with
whitespace (the loader strips each whole line). -/
def CleanShoe (s : Shoe) : Prop :=
  CleanStr s.country ∧ CleanStr s.code ∧ CleanStr s.product ∧
  s.country.head?.all (fun c => !c.isWhitespace) = true

instance cleanStrDec : DecidablePred CleanStr := fun cs => by
  unfold CleanStr
  infer_instance

instance cleanShoeDec : DecidablePred CleanShoe := fun s => by
  unfold CleanShoe
  infer_instance

/-- The fields of a shoe pass the capture validators: country and product
pass the letters-and-spaces check, the code fully matches `SKU\d+`, and
cost and quantity are non-negative. -/
def ValidShoe (sh : Shoe) : Prop :=
  validTextF sh.country = some sh.country ∧
  validCodeF sh.code = some sh.code ∧
  validTextF sh.product = some sh.product ∧
  0 ≤ sh.cost ∧ 0 ≤ sh.quantity

/-! ## Concrete stores used by witnesses and counterexamples -/

/-- A shoe with code `SKU1`, quantity 10. -/
def shoeA : Shoe := ⟨"Argentina".toList, "SKU1".toList, "Puma".toList, 5, 10⟩

/-- A second shoe sharing code `SKU1`, quantity 1. -/
def shoeB : Shoe := ⟨"Brazil".toList, "SKU1".toList, "Asics".toList, 7, 1⟩

/-- A store with a duplicated code where the later record has the lower
quantity. -/
def dupStore : List Shoe := [shoeA, shoeB]

/-- A store whose quantities are `[5, 1, 9, 9]`. -/
def qtyStore : List Shoe :=
  [⟨"Chile".toList, "SKU2".toList, "Nike".toList, 3, 5⟩,
   ⟨"Peru".toList, "SKU3".toList, "Vans".toList, 4, 1⟩,
   ⟨"Ghana".toList, "SKU4".toList, "Fila".toList, 6, 9⟩,
   ⟨"Kenya".toList, "SKU5".toList, "Reebok".toList, 8, 9⟩]

/-- A store whose only record has a newline inside its (comma-free)
country field. -/
def nlStore : List Shoe :=
  [⟨"A\nB".toList, "SKU1".toList, "P".toList, 1, 1⟩]

/-- An empty interaction script. -/
def emptyScript : Script := ⟨[], [], [], []⟩

/-! ## Lemmas: digits and decimal rendering -/

lemma isDigitCh_cases {c : Char} (h : isDigitCh c = true) :
    c = '0' ∨ c = '1' ∨ c = '2' ∨ c = '3' ∨ c = '4' ∨ c = '5' ∨ c = '6' ∨
    c = '7' ∨ c = '8' ∨ c = '9' := by
  simp only [isDigitCh, Bool.or_eq_true, beq_iff_eq] at h
  tauto

lemma isDigitCh_not_special {c : Char} (h : isDigitCh c = true) :
    c.isWhitespace = false ∧ c ≠ ',' ∧ c ≠ '\n' ∧ c ≠ '+' ∧ c ≠ '-' := by
  rcases isDigitCh_cases h with
    rfl | rfl | rfl | rfl | rfl | rfl | rfl | rfl | rfl | rfl <;> decide

lemma digitChar_digit {n : Nat} (h : n < 10) :
    isDigitCh (digitChar n) = true := by
  interval_cases n <;> decide

lemma digitChar_val {n : Nat} (h : n < 10) : (digitChar n).toNat - 48 = n := by
  interval_cases n <;> decide

lemma foldlDigits_append (l : Str) (c : Char) :
    foldlDigits (l ++ [c]) = 10 * foldlDigits l + (c.toNat - 48) := by
  simp [foldlDigits, List.foldl_append]

lemma natDigitsAux_spec :
    ∀ fuel n, n < 10 ^ (fuel + 1) →
      natDigitsAux (fuel + 1) n ≠ [] ∧
      (∀ c ∈ natDigitsAux (fuel + 1) n, isDigitCh c = true) ∧
      foldlDigits (natDigitsAux (fuel + 1) n) = n := by
  intro fuel
  induction fuel with
  | zero =>
    intro n hn
    have h10 : n < 10 := by simpa using hn
    have hstep : natDigitsAux 1 n = [digitChar n] := by
      show (if n < 10 then [digitChar n]
        else natDigitsAux 0 (n / 10) ++ [digitChar (n % 10)]) = _
      rw [if_pos h10]
    rw [hstep]
    refine ⟨by simp, ?_, ?_⟩
    · intro c hc
      simp only [List.mem_singleton] at hc
      subst hc
      exact digitChar_digit h10
    · simp [foldlDigits, digitChar_val h10]
  | succ fuel ih =>
    intro n hn
    by_cases h10 : n < 10
    · have hstep : natDigitsAux (fuel + 1 + 1) n = [digitChar n] := by
        show (if n < 10 then [digitChar n]
          else natDigitsAux (fuel + 1) (n / 10) ++ [digitChar (n % 10)]) = _
        rw [if_pos h10]
      rw [hstep]
      refine ⟨by simp, ?_, ?_⟩
      · intro c hc
        simp only [List.mem_singleton] at hc
        subst hc
        exact digitChar_digit h10
      · simp [foldlDigits, digitChar_val h10]
    · have hdiv : n / 10 < 10 ^ (fuel + 1) := by
        rw [Nat.div_lt_iff_lt_mul (by norm_num)]
        calc n < 10 ^ (fuel + 1 + 1) := hn
          _ = 10 ^ (fuel + 1) * 10 := by ring
      obtain ⟨h1, h2, h3⟩ := ih (n / 10) hdiv
      have hstep : natDigitsAux (fuel + 1 + 1) n =
          natDigitsAux (fuel + 1) (n / 10) ++ [digitChar (n % 10)] := by
        show (if n < 10 then [digitChar n]
          else natDigitsAux (fuel + 1) (n / 10) ++ [digitChar (n % 10)]) = _
        rw [if_neg h10]
      rw [hstep]
      refine ⟨by simp, ?_, ?_⟩
      · intro c hc
        rcases List.mem_append.mp hc with hc | hc
        · exact h2 c hc
        · simp only [List.mem_singleton] at hc
          subst hc
          exact digitChar_digit (Nat.mod_lt _ (by norm_num))
      · rw [foldlDigits_append, h3, digitChar_val (Nat.mod_lt _ (by norm_num))]
        omega

lemma natDigits_spec (n : Nat) :
    natDigits n ≠ [] ∧ (∀ c ∈ natDigits n, isDigitCh c = true) ∧
      foldlDigits (natDigits n) = n := by
  have hn : n < 10 ^ (n + 1) :=
    lt_of_lt_of_le (Nat.lt_pow_self (by norm_num) n)
      (Nat.pow_le_pow_right (by norm_num) (Nat.le_succ n))
  exact natDigitsAux_spec n n hn

lemma digitsVal?_natDigits (n : Nat) : digitsVal? (natDigits n) = some n := by
  obtain ⟨h1, h2, h3⟩ := natDigits_spec n
  have hEmpty : (natDigits n).isEmpty = false := by simp [List.isEmpty_iff, h1]
  have hAll : (natDigits n).all isDigitCh = true := List.all_eq_true.mpr h2
  simp [digitsVal?, hEmpty, hAll, h3]

lemma intStr_chars {i : Int} {c : Char} (hc : c ∈ intStr i) :
    isDigitCh c = true ∨ c = '-' := by
  unfold intStr at hc
  split at hc
  · rcases List.mem_cons.mp hc with rfl | hc
    · exact Or.inr rfl
    · exact Or.inl ((natDigits_spec _).2.1 c hc)
  · exact Or.inl ((natDigits_spec _).2.1 c hc)

lemma intStr_no_ws {i : Int} {c : Char} (hc : c ∈ intStr i) :
    c.isWhitespace = false := by
  rcases intStr_chars hc with h | rfl
  · exact (isDigitCh_not_special h).1
  · decide

lemma intStr_no_comma {i : Int} : ',' ∉ intStr i := by
  intro hc
  rcases intStr_chars hc with h | h
  · exact (isDigitCh_not_special h).2.1 rfl
  · simp at h

lemma intStr_no_nl {i : Int} : '\n' ∉ intStr i := by
  intro hc
  rcases intStr_chars hc with h | h
  · exact (isDigitCh_not_special h).2.2.1 rfl
  · simp at h

lemma intStr_ne_nil (i : Int) : intStr i ≠ [] := by
  unfold intStr
  split
  · simp
  · exact (natDigits_spec _).1

/-! ## Lemmas: strip, int parsing, splitting, lines -/

lemma dropWhile_eq_self_of_head {p : Char → Bool} {cs : Str}
    (h : ∀ c, cs.head? = some c → p c = false) : cs.dropWhile p = cs := by
  cases cs with
  | nil => rfl
  | cons c rest => rw [List.dropWhile_cons, h c rfl]; simp

lemma pyStrip_eq_self_of_ends {cs : Str}
    (h1 : ∀ c, cs.head? = some c → c.isWhitespace = false)
    (h2 : ∀ c, cs.getLast? = some c → c.isWhitespace = false) :
    pyStrip cs = cs := by
  unfold pyStrip
  rw [dropWhile_eq_self_of_head h1]
  rw [dropWhile_eq_self_of_head (by
    intro c hc
    exact h2 c (by rw [← List.head?_reverse]; exact hc))]
  exact List.reverse_reverse cs

lemma pyStrip_eq_self_of_all {cs : Str}
    (h : ∀ c ∈ cs, c.isWhitespace = false) : pyStrip cs = cs := by
  refine pyStrip_eq_self_of_ends ?_ ?_
  · intro c hc
    exact h c (List.mem_of_mem_head? (by simp [hc]))
  · intro c hc
    exact h c (List.mem_of_mem_getLast? (by simp [hc]))

lemma pyStrip_intStr (i : Int) : pyStrip (intStr i) = intStr i :=
  pyStrip_eq_self_of_all (fun _ hc => intStr_no_ws hc)

lemma pyInt?_intStr (i : Int) : pyInt? (intStr i) = some i := by
  unfold pyInt?
  rw [pyStrip_intStr]
  rcases lt_or_le i 0 with hneg | hpos
  · rw [show intStr i = '-' :: natDigits i.natAbs from by
      unfold intStr
      rw [if_pos hneg]]
    dsimp only
    rw [if_neg (by decide), if_pos rfl, digitsVal?_natDigits]
    show some (-(i.natAbs : Int)) = some i
    congr 1
    omega
  · rw [show intStr i = natDigits i.toNat from by
      unfold intStr
      rw [if_neg (by omega)]]
    obtain ⟨hne, hdig, _⟩ := natDigits_spec i.toNat
    obtain ⟨c, rest, hcr⟩ : ∃ c rest, natDigits i.toNat = c :: rest := by
      cases hnd : natDigits i.toNat with
      | nil => exact absurd hnd hne
      | cons c rest => exact ⟨c, rest, rfl⟩
    rw [hcr]
    dsimp only
    have hc : isDigitCh c = true := hdig c (by rw [hcr]; simp)
    rw [if_neg (isDigitCh_not_special hc).2.2.2.1,
      if_neg (isDigitCh_not_special hc).2.2.2.2]
    rw [← hcr, digitsVal?_natDigits]
    simp only [Option.map_some']
    congr 1
    exact Int.toNat_of_nonneg hpos

lemma splitOnChar_ne_nil (sep : Char) (cs : Str) : splitOnChar sep cs ≠ [] := by
  cases cs with
  | nil => simp [splitOnChar]
  | cons c rest =>
    unfold splitOnChar
    split
    · simp
    · split <;> simp

lemma splitOnChar_cons_exists (sep : Char) (cs : Str) :
    ∃ f r, splitOnChar sep cs = f :: r := by
  cases h : splitOnChar sep cs with
  | nil => exact absurd h (splitOnChar_ne_nil sep cs)
  | cons f r => exact ⟨f, r, rfl⟩

lemma splitOnChar_not_mem {sep : Char} {cs : Str} (h : sep ∉ cs) :
    splitOnChar sep cs = [cs] := by
  induction cs with
  | nil => rfl
  | cons c rest ih =>
    have hc : ¬ c = sep := by
      rintro rfl
      exact h (by simp)
    have hrest : sep ∉ rest := fun hm => h (by simp [hm])
    unfold splitOnChar
    rw [ih hrest]
    simp [hc]

lemma splitOnChar_cons_eq {sep : Char} {cs f : Str} {r : List Str}
    (hfr : splitOnChar sep cs = f :: r) (c : Char) :
    splitOnChar sep (c :: cs) =
      if c = sep then [] :: f :: r else (c :: f) :: r := by
  rw [show splitOnChar sep (c :: cs) = match splitOnChar sep cs with
    | [] => [[]]
    | f :: rest => if c = sep then [] :: f :: rest else (c :: f) :: rest
    from rfl, hfr]

lemma splitOnChar_append {sep : Char} {xs : Str} (ys : Str) (h : sep ∉ xs) :
    splitOnChar sep (xs ++ sep :: ys) = xs :: splitOnChar sep ys := by
  induction xs with
  | nil =>
    obtain ⟨f, r, hfr⟩ := splitOnChar_cons_exists sep ys
    simp only [List.nil_append]
    rw [splitOnChar_cons_eq hfr sep, if_pos rfl, hfr]
  | cons c rest ih =>
    have hc : ¬ c = sep := by
      rintro rfl
      exact h (by simp)
    have hrest : sep ∉ rest := fun hm => h (by simp [hm])
    simp only [List.cons_append]
    rw [splitOnChar_cons_eq (ih hrest) c, if_neg hc]

lemma pyLines_nil : pyLines (mkFile []) = [] := by decide

lemma pyLines_cons {l : Str} (ls : List Str) (hl : '\n' ∉ l) :
    pyLines (mkFile (l :: ls)) = l :: pyLines (mkFile ls) := by
  have key : splitOnChar '\n' (mkFile (l :: ls)) =
      l :: splitOnChar '\n' (mkFile ls) := by
    show splitOnChar '\n' (l ++ '\n' :: mkFile ls) = _
    exact splitOnChar_append _ hl
  obtain ⟨f, r, hfr⟩ := splitOnChar_cons_exists '\n' (mkFile ls)
  unfold pyLines
  rw [key, hfr]
  dsimp only
  rw [List.getLast?_cons_cons]
  by_cases hlast : (f :: r).getLast? = some ([] : Str)
  · rw [if_pos hlast, if_pos hlast]
    rfl
  · rw [if_neg hlast, if_neg hlast]

lemma pyLines_mkFile {lines : List Str} (h : ∀ l ∈ lines, '\n' ∉ l) :
    pyLines (mkFile lines) = lines := by
  induction lines with
  | nil => exact pyLines_nil
  | cons l ls ih =>
    rw [pyLines_cons ls (h l (by simp))]
    rw [ih (fun x hx => h x (by simp [hx]))]

/-! ## Lemmas: parsing data lines and the write/read round trip -/

lemma list_len5 {α : Type} {l : List α} (h : l.length = 5) :
    ∃ a b c d e, l = [a, b, c, d, e] := by
  rcases l with _ | ⟨a, _ | ⟨b, _ | ⟨c, _ | ⟨d, _ | ⟨e, _ | ⟨f, t⟩⟩⟩⟩⟩⟩ <;>
    simp_all

lemma parseLine_of_fields {l a b c d e : Str} {ts : List Str} {n3 n4 : Int}
    (hfs : splitOnChar ',' (pyStrip l) = a :: b :: c :: d :: e :: ts)
    (h3 : pyInt? d = some n3) (h4 : pyInt? e = some n4) :
    parseLine l = .ok ⟨a, b, c, n3, n4⟩ := by
  unfold parseLine
  rw [hfs]
  simp [getField, pyIntE, h3, h4]

lemma lineShoe_of_fields {l a b c d e : Str} {ts : List Str} {n3 n4 : Int}
    (hfs : splitOnChar ',' (pyStrip l) = a :: b :: c :: d :: e :: ts)
    (h3 : pyInt? d = some n3) (h4 : pyInt? e = some n4) :
    lineShoe l = ⟨a, b, c, n3, n4⟩ := by
  unfold lineShoe
  rw [hfs]
  simp [List.getD, h3, h4]

lemma validDataLine_fields {l : Str} (h : validDataLine l = true) :
    ∃ a b c d e n3 n4, splitOnChar ',' (pyStrip l) = [a, b, c, d, e] ∧
      pyInt? d = some n3 ∧ pyInt? e = some n4 := by
  simp only [validDataLine, Bool.and_eq_true, beq_iff_eq] at h
  obtain ⟨⟨h5, h3⟩, h4⟩ := h
  obtain ⟨a, b, c, d, e, hfs⟩ := list_len5 h5
  rw [hfs] at h3 h4
  simp only [List.getD] at h3 h4
  obtain ⟨n3, hn3⟩ := Option.isSome_iff_exists.mp (by simpa using h3)
  obtain ⟨n4, hn4⟩ := Option.isSome_iff_exists.mp (by simpa using h4)
  exact ⟨a, b, c, d, e, n3, n4, hfs, hn3, hn4⟩

lemma parseLine_of_valid {l : Str} (h : validDataLine l = true) :
    parseLine l = .ok (lineShoe l) := by
  obtain ⟨a, b, c, d, e, n3, n4, hfs, hn3, hn4⟩ := validDataLine_fields h
  rw [parseLine_of_fields hfs hn3 hn4, lineShoe_of_fields hfs hn3 hn4]

lemma parseLines_of_valid {ls : List Str}
    (h : ∀ l ∈ ls, validDataLine l = true) :
    parseLines ls = .ok (ls.map lineShoe) := by
  induction ls with
  | nil => rfl
  | cons l t ih =>
    unfold parseLines
    rw [parseLine_of_valid (h l (by simp)), ih (fun x hx => h x (by simp [hx]))]
    rfl

lemma getLast?_append_of_some {l l' : Str} {c : Char}
    (h : l'.getLast? = some c) : (l ++ l').getLast? = some c := by
  rw [List.getLast?_append, h]
  rfl

lemma getLast?_cons_of_some {a c : Char} {l : Str}
    (h : l.getLast? = some c) : (a :: l).getLast? = some c := by
  rw [show a :: l = [a] ++ l from rfl]
  exact getLast?_append_of_some h

lemma serializeLine_split {s : Shoe} (hc1 : ',' ∉ s.country)
    (hc2 : ',' ∉ s.code) (hc3 : ',' ∉ s.product) :
    splitOnChar ',' (serializeLine s) =
      [s.country, s.code, s.product, intStr s.cost, intStr s.quantity] := by
  unfold serializeLine
  rw [splitOnChar_append _ hc1, splitOnChar_append _ hc2,
    splitOnChar_append _ hc3, splitOnChar_append _ intStr_no_comma,
    splitOnChar_not_mem intStr_no_comma]

lemma serializeLine_getLast? {s : Shoe} :
    ∃ c, (serializeLine s).getLast? = some c ∧ c ∈ intStr s.quantity := by
  obtain ⟨c, hc⟩ : ∃ c, (intStr s.quantity).getLast? = some c := by
    cases hq : (intStr s.quantity).getLast? with
    | none => exact absurd (List.getLast?_eq_none_iff.mp hq) (intStr_ne_nil _)
    | some c => exact ⟨c, rfl⟩
  refine ⟨c, ?_, List.mem_of_mem_getLast? (by simp [hc])⟩
  unfold serializeLine
  exact getLast?_append_of_some (getLast?_cons_of_some
    (getLast?_append_of_some (getLast?_cons_of_some
      (getLast?_append_of_some (getLast?_cons_of_some
        (getLast?_append_of_some (getLast?_cons_of_some hc)))))))

lemma pyStrip_serializeLine {s : Shoe}
    (hhead : ∀ c, s.country.head? = some c → c.isWhitespace = false) :
    pyStrip (serializeLine s) = serializeLine s := by
  apply pyStrip_eq_self_of_ends
  · intro c hc
    cases hcty : s.country with
    | nil =>
      have he : (serializeLine s).head? = some ',' := by
        unfold serializeLine
        rw [hcty]
        rfl
      rw [he] at hc
      injection hc with h
      rw [← h]
      decide
    | cons x t =>
      have he : (serializeLine s).head? = some x := by
        unfold serializeLine
        rw [hcty]
        rfl
      rw [he] at hc
      injection hc with h
      rw [← h]
      exact hhead x (by rw [hcty]; rfl)
  · intro c hc
    obtain ⟨c', hc', hmem⟩ := serializeLine_getLast? (s := s)
    rw [hc'] at hc
    injection hc with h
    rw [← h]
    exact intStr_no_ws hmem

lemma serializeLine_no_nl {s : Shoe} (h1 : '\n' ∉ s.country)
    (h2 : '\n' ∉ s.code) (h3 : '\n' ∉ s.product) :
    '\n' ∉ serializeLine s := by
  unfold serializeLine
  intro hmem
  rcases List.mem_append.mp hmem with h | h
  · exact h1 h
  · rcases List.mem_cons.mp h with h | h
    · exact absurd h (by decide)
    · rcases List.mem_append.mp h with h | h
      · exact h2 h
      · rcases List.mem_cons.mp h with h | h
        · exact absurd h (by decide)
        · rcases List.mem_append.mp h with h | h
          · exact h3 h
          · rcases List.mem_cons.mp h with h | h
            · exact absurd h (by decide)
            · rcases List.mem_append.mp h with h | h
              · exact intStr_no_nl h
              · rcases List.mem_cons.mp h with h | h
                · exact absurd h (by decide)
                · exact intStr_no_nl h

lemma cleanShoe_head {s : Shoe} (h : CleanShoe s) :
    ∀ c, s.country.head? = some c → c.isWhitespace = false := by
  intro c hc
  have h4 := h.2.2.2
  rw [hc] at h4
  simpa using h4

lemma parseLine_serializeLine {s : Shoe} (hs : CleanShoe s) :
    parseLine (serializeLine s) = .ok s := by
  have hhead := cleanShoe_head hs
  obtain ⟨⟨hc1, _⟩, ⟨hc2, _⟩, ⟨hc3, _⟩, _⟩ := hs
  have hsplit : splitOnChar ',' (pyStrip (serializeLine s)) =
      s.country :: s.code :: s.product :: intStr s.cost
        :: intStr s.quantity :: [] := by
    rw [pyStrip_serializeLine hhead, serializeLine_split hc1 hc2 hc3]
  rw [parseLine_of_fields hsplit (pyInt?_intStr _) (pyInt?_intStr _)]

lemma read_write_roundtrip {store : List Shoe}
    (h : ∀ s ∈ store, CleanShoe s) :
    read_shoes_data (some (write_inventory store)) = .ok store := by
  have hnl : ∀ l ∈ headerLine :: store.map serializeLine, '\n' ∉ l := by
    intro l hl
    rcases List.mem_cons.mp hl with rfl | hl
    · decide
    · obtain ⟨s, hs, rfl⟩ := List.mem_map.mp hl
      obtain ⟨⟨_, h1⟩, ⟨_, h2⟩, ⟨_, h3⟩, _⟩ := h s hs
      exact serializeLine_no_nl h1 h2 h3
  unfold read_shoes_data write_inventory
  dsimp only
  rw [pyLines_mkFile hnl]
  dsimp only
  have : ∀ ls, (∀ s ∈ ls, CleanShoe s) →
      parseLines (ls.map serializeLine) = .ok ls := by
    intro ls
    induction ls with
    | nil => intro _; rfl
    | cons x t ih =>
      intro hcl
      simp only [List.map_cons]
      unfold parseLines
      rw [parseLine_serializeLine (hcl x (by simp)),
        ih (fun y hy => hcl y (by simp [hy]))]
  exact this store h

/-! ## Lemmas: quantity selection -/

lemma firstMinIdx_eq_none {store : List Shoe} :
    firstMinIdx store = none ↔ store = [] := by
  cases store with
  | nil => simp [firstMinIdx]
  | cons s rest =>
    simp only [firstMinIdx]
    constructor
    · intro h
      cases hr : firstMinIdx rest with
      | none => rw [hr] at h; cases h
      | some p =>
        rw [hr] at h
        obtain ⟨i, m⟩ := p
        dsimp only at h
        by_cases hq : m.quantity < s.quantity
        · rw [if_pos hq] at h; cases h
        · rw [if_neg hq] at h; cases h
    · intro h; cases h

lemma firstMinIdx_cons_none {s : Shoe} {rest : List Shoe}
    (hr : firstMinIdx rest = none) :
    firstMinIdx (s :: rest) = some (0, s) := by
  simp only [firstMinIdx]
  rw [hr]

lemma firstMinIdx_cons_some {s m : Shoe} {rest : List Shoe} {i : Nat}
    (hr : firstMinIdx rest = some (i, m)) :
    firstMinIdx (s :: rest) =
      if m.quantity < s.quantity then some (i + 1, m) else some (0, s) := by
  simp only [firstMinIdx]
  rw [hr]

lemma firstMaxIdx_eq_none {store : List Shoe} :
    firstMaxIdx store = none ↔ store = [] := by
  cases store with
  | nil => simp [firstMaxIdx]
  | cons s rest =>
    simp only [firstMaxIdx]
    constructor
    · intro h
      cases hr : firstMaxIdx rest with
      | none => rw [hr] at h; cases h
      | some p =>
        rw [hr] at h
        obtain ⟨i, m⟩ := p
        dsimp only at h
        by_cases hq : s.quantity < m.quantity
        · rw [if_pos hq] at h; cases h
        · rw [if_neg hq] at h; cases h
    · intro h; cases h

lemma firstMaxIdx_cons_none {s : Shoe} {rest : List Shoe}
    (hr : firstMaxIdx rest = none) :
    firstMaxIdx (s :: rest) = some (0, s) := by
  simp only [firstMaxIdx]
  rw [hr]

lemma firstMaxIdx_cons_some {s m : Shoe} {rest : List Shoe} {i : Nat}
    (hr : firstMaxIdx rest = some (i, m)) :
    firstMaxIdx (s :: rest) =
      if s.quantity < m.quantity then some (i + 1, m) else some (0, s) := by
  simp only [firstMaxIdx]
  rw [hr]

lemma firstMinIdx_get {store : List Shoe} {j : Nat} {m : Shoe}
    (h : firstMinIdx store = some (j, m)) : store[j]? = some m := by
  induction store generalizing j m with
  | nil => cases h
  | cons s rest ih =>
    cases hr : firstMinIdx rest with
    | none =>
      rw [firstMinIdx_cons_none hr] at h
      injection h with h
      injection h with h1 h2
      subst h1
      subst h2
      simp
    | some p =>
      obtain ⟨i, mm⟩ := p
      rw [firstMinIdx_cons_some hr] at h
      by_cases hq : mm.quantity < s.quantity
      · rw [if_pos hq] at h
        injection h with h
        injection h with h1 h2
        subst h1
        subst h2
        simpa using ih hr
      · rw [if_neg hq] at h
        injection h with h
        injection h with h1 h2
        subst h1
        subst h2
        simp

lemma firstMinIdx_min {store : List Shoe} {j : Nat} {m : Shoe}
    (h : firstMinIdx store = some (j, m)) :
    ∀ s ∈ store, m.quantity ≤ s.quantity := by
  induction store generalizing j m with
  | nil => cases h
  | cons s rest ih =>
    cases hr : firstMinIdx rest with
    | none =>
      have hrest : rest = [] := firstMinIdx_eq_none.mp hr
      subst hrest
      rw [firstMinIdx_cons_none hr] at h
      injection h with h
      injection h with h1 h2
      subst h1
      subst h2
      simp
    | some p =>
      obtain ⟨i, mm⟩ := p
      rw [firstMinIdx_cons_some hr] at h
      by_cases hq : mm.quantity < s.quantity
      · rw [if_pos hq] at h
        injection h with h
        injection h with h1 h2
        subst h1
        subst h2
        intro x hx
        rcases List.mem_cons.mp hx with rfl | hx
        · exact le_of_lt hq
        · exact ih hr x hx
      · rw [if_neg hq] at h
        injection h with h
        injection h with h1 h2
        subst h1
        subst h2
        intro x hx
        rcases List.mem_cons.mp hx with rfl | hx
        · exact le_refl _
        · exact le_trans (not_lt.mp hq) (ih hr x hx)

lemma firstMinIdx_find {store : List Shoe} {j : Nat} {m : Shoe}
    (h : firstMinIdx store = some (j, m)) :
    store.find? (fun s => s.quantity == m.quantity) = some m := by
  induction store generalizing j m with
  | nil => cases h
  | cons s rest ih =>
    cases hr : firstMinIdx rest with
    | none =>
      rw [firstMinIdx_cons_none hr] at h
      injection h with h
      injection h with h1 h2
      subst h1
      subst h2
      exact List.find?_cons_of_pos _ (by simp)
    | some p =>
      obtain ⟨i, mm⟩ := p
      rw [firstMinIdx_cons_some hr] at h
      by_cases hq : mm.quantity < s.quantity
      · rw [if_pos hq] at h
        injection h with h
        injection h with h1 h2
        subst h1
        subst h2
        rw [List.find?_cons_of_neg _ (by simp; omega)]
        exact ih hr
      · rw [if_neg hq] at h
        injection h with h
        injection h with h1 h2
        subst h1
        subst h2
        exact List.find?_cons_of_pos _ (by simp)

lemma firstMaxIdx_max {store : List Shoe} {j : Nat} {m : Shoe}
    (h : firstMaxIdx store = some (j, m)) :
    ∀ s ∈ store, s.quantity ≤ m.quantity := by
  induction store generalizing j m with
  | nil => cases h
  | cons s rest ih =>
    cases hr : firstMaxIdx rest with
    | none =>
      have hrest : rest = [] := firstMaxIdx_eq_none.mp hr
      subst hrest
      rw [firstMaxIdx_cons_none hr] at h
      injection h with h
      injection h with h1 h2
      subst h1
      subst h2
      simp
    | some p =>
      obtain ⟨i, mm⟩ := p
      rw [firstMaxIdx_cons_some hr] at h
      by_cases hq : s.quantity < mm.quantity
      · rw [if_pos hq] at h
        injection h with h
        injection h with h1 h2
        subst h1
        subst h2
        intro x hx
        rcases List.mem_cons.mp hx with rfl | hx
        · exact le_of_lt hq
        · exact ih hr x hx
      · rw [if_neg hq] at h
        injection h with h
        injection h with h1 h2
        subst h1
        subst h2
        intro x hx
        rcases List.mem_cons.mp hx with rfl | hx
        · exact le_refl _
        · exact le_trans (ih hr x hx) (not_lt.mp hq)

lemma firstMaxIdx_find {store : List Shoe} {j : Nat} {m : Shoe}
    (h : firstMaxIdx store = some (j, m)) :
    store.find? (fun s => s.quantity == m.quantity) = some m := by
  induction store generalizing j m with
  | nil => cases h
  | cons s rest ih =>
    cases hr : firstMaxIdx rest with
    | none =>
      rw [firstMaxIdx_cons_none hr] at h
      injection h with h
      injection h with h1 h2
      subst h1
      subst h2
      exact List.find?_cons_of_pos _ (by simp)
    | some p =>
      obtain ⟨i, mm⟩ := p
      rw [firstMaxIdx_cons_some hr] at h
      by_cases hq : s.quantity < mm.quantity
      · rw [if_pos hq] at h
        injection h with h
        injection h with h1 h2
        subst h1
        subst h2
        rw [List.find?_cons_of_neg _ (by simp; omega)]
        exact ih hr
      · rw [if_neg hq] at h
        injection h with h
        injection h with h1 h2
        subst h1
        subst h2
        exact List.find?_cons_of_pos _ (by simp)

/-! ## Lemmas: the stable sorts select the first min/max -/

lemma head?_insertAscQty (x : Shoe) (l : List Shoe) :
    (insertAscQty x l).head? =
      some (match l.head? with
            | none => x
            | some t => if t.quantity < x.quantity then t else x) := by
  cases l with
  | nil => rfl
  | cons t rest =>
    by_cases h : t.quantity < x.quantity <;>
      simp [insertAscQty, h]

lemma head?_insertDescQty (x : Shoe) (l : List Shoe) :
    (insertDescQty x l).head? =
      some (match l.head? with
            | none => x
            | some t => if x.quantity < t.quantity then t else x) := by
  cases l with
  | nil => rfl
  | cons t rest =>
    by_cases h : x.quantity < t.quantity <;>
      simp [insertDescQty, h]

lemma head?_sortAscQty (store : List Shoe) :
    (sortAscQty store).head? = (firstMinIdx store).map Prod.snd := by
  induction store with
  | nil => rfl
  | cons s rest ih =>
    show (insertAscQty s (sortAscQty rest)).head? = _
    rw [head?_insertAscQty, ih]
    cases hr : firstMinIdx rest with
    | none =>
      rw [firstMinIdx_cons_none hr]
      rfl
    | some p =>
      obtain ⟨i, m⟩ := p
      rw [firstMinIdx_cons_some hr]
      by_cases hq : m.quantity < s.quantity <;> simp [hq]

lemma head?_sortDescQty (store : List Shoe) :
    (sortDescQty store).head? = (firstMaxIdx store).map Prod.snd := by
  induction store with
  | nil => rfl
  | cons s rest ih =>
    show (insertDescQty s (sortDescQty rest)).head? = _
    rw [head?_insertDescQty, ih]
    cases hr : firstMaxIdx rest with
    | none =>
      rw [firstMaxIdx_cons_none hr]
      rfl
    | some p =>
      obtain ⟨i, m⟩ := p
      rw [firstMaxIdx_cons_some hr]
      by_cases hq : s.quantity < m.quantity <;> simp [hq]

lemma lowestPick_eq (store : List Shoe) :
    lowestPick store = (firstMinIdx store).map Prod.snd :=
  head?_sortAscQty store

lemma highestPick_eq (store : List Shoe) :
    highestPick store = (firstMaxIdx store).map Prod.snd :=
  head?_sortDescQty store

/-! ## Lemmas: restock -/

lemma findCodeIdx_exists_le {code : Str} {l : List Shoe} {j : Nat} {x : Shoe}
    (hj : l[j]? = some x) (hx : x.code = code) :
    ∃ i, findCodeIdx code l = some i ∧ i ≤ j := by
  induction l generalizing j with
  | nil => simp at hj
  | cons s t ih =>
    by_cases hs : s.code == code
    · exact ⟨0, by simp [findCodeIdx, hs], Nat.zero_le _⟩
    · cases j with
      | zero =>
        simp only [List.getElem?_cons_zero] at hj
        injection hj with hj
        subst hj
        exact absurd (by simp [hx]) hs
      | succ jj =>
        have hj' : t[jj]? = some x := by simpa using hj
        obtain ⟨i, hi, hle⟩ := ih hj'
        refine ⟨i + 1, ?_, by omega⟩
        simp [findCodeIdx, hs, hi]

lemma findCodeIdx_lt_length {code : Str} {l : List Shoe} {i : Nat}
    (h : findCodeIdx code l = some i) : i < l.length := by
  induction l generalizing i with
  | nil => cases h
  | cons s t ih =>
    simp only [findCodeIdx] at h
    by_cases hs : s.code == code
    · rw [if_pos hs] at h
      injection h with h
      subst h
      simp
    · rw [if_neg hs] at h
      cases hrec : findCodeIdx code t with
      | none => rw [hrec] at h; cases h
      | some ii =>
        rw [hrec] at h
        simp only [Option.map_some'] at h
        injection h with h
        subst h
        have := ih hrec
        simp
        omega

lemma mem_of_getElem?_some {l : List Shoe} {n : Nat} {x : Shoe}
    (h : l[n]? = some x) : x ∈ l := by
  obtain ⟨hlt, he⟩ := List.getElem?_eq_some.mp h
  exact he ▸ List.getElem_mem hlt

lemma restock_apply_eq {store : List Shoe} {j : Nat} {low : Shoe} (a : Int)
    (h : firstMinIdx store = some (j, low)) :
    ∃ i, i ≤ j ∧
      findCodeIdx low.code
          (store.set j { low with quantity := low.quantity + a }) = some i ∧
      restock_apply store a =
        (store.set j { low with quantity := low.quantity + a }).set i
          { low with quantity := low.quantity + a } := by
  have hjlen : j < store.length :=
    (List.getElem?_eq_some.mp (firstMinIdx_get h)).1
  have hset : (store.set j { low with quantity := low.quantity + a })[j]? =
      some { low with quantity := low.quantity + a } :=
    List.getElem?_set_self (by simpa using hjlen)
  obtain ⟨i, hi, hle⟩ := findCodeIdx_exists_le hset rfl
  refine ⟨i, hle, hi, ?_⟩
  unfold restock_apply
  rw [h]
  dsimp only
  rw [hi]

/-! ## Lemmas: interactive capture -/

lemma promptField_ok {α : Type} {norm : Str → Str} {validate : Str → Option α}
    {inputs rest : List Str} {a : α}
    (h : promptField norm validate inputs = some (.ok a rest)) :
    ∃ s, validate (norm s) = some a := by
  induction inputs with
  | nil => cases h
  | cons s t ih =>
    simp only [promptField] at h
    by_cases hc : cancel_capture (norm s) = true
    · rw [if_pos hc] at h
      simp at h
    · rw [if_neg hc] at h
      cases hv : validate (norm s) with
      | none =>
        rw [hv] at h
        exact ih h
      | some b =>
        rw [hv] at h
        dsimp only at h
        injection h with h
        injection h with h1 h2
        exact ⟨s, by rw [hv, h1]⟩

lemma validTextF_some {v a : Str} (h : validTextF v = some a) :
    validTextF a = some a := by
  unfold validTextF at h ⊢
  by_cases hcond :
      (!v.isEmpty && pyIsAlpha (v.filter fun c => !(c == ' '))) = true
  · rw [if_pos hcond] at h
    injection h with h
    subst h
    rw [if_pos hcond]
  · rw [if_neg hcond] at h
    cases h

lemma validCodeF_some {v a : Str} (h : validCodeF v = some a) :
    validCodeF a = some a := by
  unfold validCodeF at h ⊢
  by_cases hcond : isSKU v = true
  · rw [if_pos hcond] at h
    injection h with h
    subst h
    rw [if_pos hcond]
  · rw [if_neg hcond] at h
    cases h

lemma validNumF_nonneg {v : Str} {n : Int} (h : validNumF v = some n) :
    0 ≤ n := by
  unfold validNumF at h
  cases hv : pyInt? v with
  | none =>
    rw [hv] at h
    cases h
  | some m =>
    rw [hv] at h
    dsimp only at h
    by_cases hm : m < 0
    · rw [if_pos hm] at h
      cases h
    · rw [if_neg hm] at h
      injection h with h
      subst h
      omega

lemma capture_shoes_spec {store : List Shoe} {inputs : List Str}
    {res : List Shoe} (h : capture_shoes store inputs = some res) :
    res = store ∨ ∃ sh, res = store ++ [sh] ∧ ValidShoe sh := by
  unfold capture_shoes at h
  cases h1 : promptField normText validTextF inputs with
  | none => rw [h1] at h; cases h
  | some fr1 =>
  rw [h1] at h
  cases fr1 with
  | cancelled =>
    dsimp only at h
    injection h with h
    exact Or.inl h.symm
  | ok country rest1 =>
  dsimp only at h
  cases h2 : promptField normCode validCodeF rest1 with
  | none => rw [h2] at h; cases h
  | some fr2 =>
  rw [h2] at h
  cases fr2 with
  | cancelled =>
    dsimp only at h
    injection h with h
    exact Or.inl h.symm
  | ok code rest2 =>
  dsimp only at h
  cases h3 : promptField normText validTextF rest2 with
  | none => rw [h3] at h; cases h
  | some fr3 =>
  rw [h3] at h
  cases fr3 with
  | cancelled =>
    dsimp only at h
    injection h with h
    exact Or.inl h.symm
  | ok product rest3 =>
  dsimp only at h
  cases h4 : promptField normNum validNumF rest3 with
  | none => rw [h4] at h; cases h
  | some fr4 =>
  rw [h4] at h
  cases fr4 with
  | cancelled =>
    dsimp only at h
    injection h with h
    exact Or.inl h.symm
  | ok cost rest4 =>
  dsimp only at h
  cases h5 : promptField normNum validNumF rest4 with
  | none => rw [h5] at h; cases h
  | some fr5 =>
  rw [h5] at h
  cases fr5 with
  | cancelled =>
    dsimp only at h
    injection h with h
    exact Or.inl h.symm
  | ok quantity rest5 =>
  dsimp only at h
  injection h with h
  refine Or.inr ⟨⟨country, code, product, cost, quantity⟩, h.symm, ?_, ?_, ?_, ?_, ?_⟩
  · obtain ⟨s1, hv1⟩ := promptField_ok h1
    exact validTextF_some hv1
  · obtain ⟨s2, hv2⟩ := promptField_ok h2
    exact validCodeF_some hv2
  · obtain ⟨s3, hv3⟩ := promptField_ok h3
    exact validTextF_some hv3
  · obtain ⟨s4, hv4⟩ := promptField_ok h4
    exact validNumF_nonneg hv4
  · obtain ⟨s5, hv5⟩ := promptField_ok h5
    exact validNumF_nonneg hv5

/-! ## Lemmas: restock membership, menu safety, search, loader errors -/

lemma restock_mem {store : List Shoe} {a : Int} {s : Shoe}
    (hs : s ∈ restock_apply store a) :
    s ∈ store ∨ ∃ j low, firstMinIdx store = some (j, low) ∧
      s = { low with quantity := low.quantity + a } := by
  unfold restock_apply at hs
  cases hm : firstMinIdx store with
  | none =>
    rw [hm] at hs
    exact Or.inl hs
  | some p =>
    obtain ⟨j, low⟩ := p
    rw [hm] at hs
    dsimp only at hs
    cases hf : findCodeIdx low.code
        (store.set j { low with quantity := low.quantity + a }) with
    | none =>
      rw [hf] at hs
      rcases List.mem_or_eq_of_mem_set hs with hs | rfl
      · exact Or.inl hs
      · exact Or.inr ⟨j, low, rfl, rfl⟩
    | some i =>
      rw [hf] at hs
      rcases List.mem_or_eq_of_mem_set hs with hs | rfl
      · rcases List.mem_or_eq_of_mem_set hs with hs | rfl
        · exact Or.inl hs
        · exact Or.inr ⟨j, low, rfl, rfl⟩
      · exact Or.inr ⟨j, low, rfl, rfl⟩

lemma re_stock_no_error {store : List Shoe} {file confirm : Str}
    {amounts : List Str} {res : Except PyErr (List Shoe × Str)}
    (hne : store ≠ []) (h : re_stock store file confirm amounts = some res) :
    ∃ out, res = Except.ok out := by
  have hemp : ¬ store.isEmpty = true := fun hh => hne (List.isEmpty_iff.mp hh)
  unfold re_stock at h
  rw [if_neg hemp] at h
  by_cases hy : pyUpper (pyStrip confirm) = ['Y']
  · rw [if_pos hy] at h
    cases hl : restockAmountLoop amounts with
    | none =>
      rw [hl] at h
      cases h
    | some o =>
      rw [hl] at h
      cases o with
      | none =>
        dsimp only at h
        injection h with h
        exact ⟨_, h.symm⟩
      | some a =>
        dsimp only at h
        injection h with h
        exact ⟨_, h.symm⟩
  · rw [if_neg hy] at h
    injection h with h
    exact ⟨_, h.symm⟩

lemma dispatch_ok {store : List Shoe} {file : Str} {sel : Int} {sc : Script}
    {res : Except PyErr (List Shoe × Str)}
    (hsafe : store ≠ [] ∨ (sel ≠ 3 ∧ sel ≠ 6))
    (h : dispatch store file sel sc = some res) :
    ∃ out, res = Except.ok out := by
  unfold dispatch at h
  by_cases h1 : sel = 1
  · rw [if_pos h1] at h
    injection h with h
    exact ⟨_, h.symm⟩
  rw [if_neg h1] at h
  by_cases h2 : sel = 2
  · rw [if_pos h2] at h
    cases hc : capture_shoes store sc.captureInputs with
    | none =>
      rw [hc] at h
      cases h
    | some st =>
      rw [hc] at h
      simp only [Option.map_some'] at h
      injection h with h
      exact ⟨_, h.symm⟩
  rw [if_neg h2] at h
  by_cases h3 : sel = 3
  · rw [if_pos h3] at h
    rcases hsafe with hne | ⟨hno3, _⟩
    · exact re_stock_no_error hne h
    · exact absurd h3 hno3
  rw [if_neg h3] at h
  by_cases h4 : sel = 4
  · rw [if_pos h4] at h
    injection h with h
    exact ⟨_, h.symm⟩
  rw [if_neg h4] at h
  by_cases h5 : sel = 5
  · rw [if_pos h5] at h
    injection h with h
    exact ⟨_, h.symm⟩
  rw [if_neg h5] at h
  by_cases h6 : sel = 6
  · rw [if_pos h6] at h
    rcases hsafe with hne | ⟨_, hno6⟩
    · rw [if_neg (fun hh => hne (List.isEmpty_iff.mp hh))] at h
      injection h with h
      exact ⟨_, h.symm⟩
    · exact absurd h6 hno6
  rw [if_neg h6] at h
  injection h with h
  exact ⟨_, h.symm⟩

lemma find?_first {p : Shoe → Bool} {l : List Shoe} {r : Shoe}
    (h : l.find? p = some r) :
    ∃ i, ∃ hlt : i < l.length, l.get ⟨i, hlt⟩ = r ∧ p r = true ∧
      ∀ k (hk : k < l.length), k < i → p (l.get ⟨k, hk⟩) = false := by
  induction l with
  | nil => cases h
  | cons x t ih =>
    by_cases hx : p x = true
    · rw [List.find?_cons_of_pos _ hx] at h
      injection h with h
      subst h
      exact ⟨0, by simp, rfl, hx, fun k hk hlt => absurd hlt (by omega)⟩
    · rw [List.find?_cons_of_neg _ hx] at h
      obtain ⟨i, hlt, hget, hp, hbefore⟩ := ih h
      refine ⟨i + 1, by simpa using hlt, ?_, hp, ?_⟩
      · simpa using hget
      · intro k hk hki
        cases k with
        | zero => simpa using hx
        | succ kk =>
          have hkk : kk < t.length := by simpa using hk
          have := hbefore kk hkk (by omega)
          simpa using this

lemma parseLine_error_of_bad {l : Str}
    (hbad : (splitOnChar ',' (pyStrip l)).length < 5 ∨
      pyInt? ((splitOnChar ',' (pyStrip l)).getD 3 []) = none ∨
      pyInt? ((splitOnChar ',' (pyStrip l)).getD 4 []) = none) :
    ∃ e, parseLine l = .error e := by
  unfold parseLine
  rcases hfs : splitOnChar ',' (pyStrip l) with
    _ | ⟨a, _ | ⟨b, _ | ⟨c, _ | ⟨d, _ | ⟨e, ts⟩⟩⟩⟩⟩
  · exact ⟨.indexError, by simp [getField]⟩
  · exact ⟨.indexError, by simp [getField]⟩
  · exact ⟨.indexError, by simp [getField]⟩
  · exact ⟨.indexError, by simp [getField]⟩
  · cases hd : pyInt? d with
    | none => exact ⟨.valueError, by simp [getField, pyIntE, hd]⟩
    | some n3 => exact ⟨.indexError, by simp [getField, pyIntE, hd]⟩
  · rw [hfs] at hbad
    rcases hbad with hlen | hd | he
    · simp at hlen
      omega
    · simp [List.getD] at hd
      refine ⟨.valueError, ?_⟩
      simp [getField, pyIntE, hd]
    · simp [List.getD] at he
      cases hd : pyInt? d with
      | none => exact ⟨.valueError, by simp [getField, pyIntE, hd]⟩
      | some n3 => exact ⟨.valueError, by simp [getField, pyIntE, hd, he]⟩

lemma parseLines_error_of_mem {ls : List Str} {l : Str} (hmem : l ∈ ls)
    (hl : ∃ e, parseLine l = .error e) :
    ∃ e, parseLines ls = .error e := by
  induction ls with
  | nil => cases hmem
  | cons x t ih =>
    unfold parseLines
    cases hx : parseLine x with
    | error e => exact ⟨e, rfl⟩
    | ok s =>
      rcases List.mem_cons.mp hmem with rfl | hmem2
      · obtain ⟨e, he⟩ := hl
        rw [he] at hx
        cases hx
      · obtain ⟨e, he⟩ := ih hmem2
        rw [he]
        exact ⟨e, rfl⟩

/-! ## Claim theorems -/

/-- C1 counterexample: in `dupStore` the selected lowest-quantity record is
`shoeB` at index 1, yet after a restock by 3 the record at index 0 (which
merely shares `shoeB`'s code) does not keep its fields: the claim that
every non-selected record is unchanged is false. -/
theorem C1_counterexample :
    firstMinIdx dupStore = some (1, shoeB) ∧
    shoeA.code = shoeB.code ∧
    (restock_apply dupStore 3)[0]? ≠ dupStore[0]? := by
  refine ⟨by decide, by decide, by decide⟩

/-- C1 (amended): a confirmed restock with non-negative amount `a`
increases the quantity of the selected lowest-quantity record (index `j`)
by exactly `a`, and every record other than the selected one and the first
record sharing its code (index `i ≤ j`, which is overwritten by the
updated selected record) is unchanged. -/
theorem C1_restock_frame (store : List Shoe) (a : Int) (j : Nat) (low : Shoe)
    (_ha : 0 ≤ a) (h : firstMinIdx store = some (j, low)) :
    ∃ i, i ≤ j ∧
      findCodeIdx low.code
          (store.set j { low with quantity := low.quantity + a }) = some i ∧
      (restock_apply store a).length = store.length ∧
      (restock_apply store a)[j]? =
        some { low with quantity := low.quantity + a } ∧
      (restock_apply store a)[i]? =
        some { low with quantity := low.quantity + a } ∧
      ∀ k, k ≠ i → k ≠ j → (restock_apply store a)[k]? = store[k]? := by
  obtain ⟨i, hle, hi, heq⟩ := restock_apply_eq a h
  have hjlen : j < store.length :=
    (List.getElem?_eq_some.mp (firstMinIdx_get h)).1
  have hilen : i < (store.set j
      { low with quantity := low.quantity + a }).length :=
    findCodeIdx_lt_length hi
  refine ⟨i, hle, hi, ?_, ?_, ?_, ?_⟩
  · rw [heq]
    simp
  · rw [heq]
    by_cases hij : i = j
    · subst hij
      exact List.getElem?_set_self hilen
    · rw [List.getElem?_set_ne hij]
      exact List.getElem?_set_self (by simpa using hjlen)
  · rw [heq]
    exact List.getElem?_set_self hilen
  · intro k hki hkj
    rw [heq, List.getElem?_set_ne (Ne.symm hki),
      List.getElem?_set_ne (Ne.symm hkj)]

/-- C1 witness: the amended frame property instantiated on `dupStore` with
amount 3. -/
theorem C1_restock_frame_witness :
    firstMinIdx dupStore = some (1, shoeB) ∧
    (∃ i, i ≤ 1 ∧
      findCodeIdx shoeB.code
          (dupStore.set 1 { shoeB with quantity := shoeB.quantity + 3 }) =
        some i ∧
      (restock_apply dupStore 3).length = dupStore.length ∧
      (restock_apply dupStore 3)[1]? =
        some { shoeB with quantity := shoeB.quantity + 3 } ∧
      (restock_apply dupStore 3)[i]? =
        some { shoeB with quantity := shoeB.quantity + 3 } ∧
      ∀ k, k ≠ i → k ≠ 1 → (restock_apply dupStore 3)[k]? = dupStore[k]?) :=
  ⟨by decide, C1_restock_frame dupStore 3 1 shoeB (by decide) (by decide)⟩

/-- C2 counterexample: with the empty store that results from a missing
backing file, menu selections 3 (restock) and 6 (highest quantity) both
raise an `IndexError` that the menu loop's `except ValueError` does not
catch, so an exception escapes. -/
theorem C2_counterexample :
    menu_step [] [] 3 emptyScript = some (.error .indexError) ∧
    menu_step [] [] 6 emptyScript = some (.error .indexError) := by
  refine ⟨by decide, by decide⟩

/-- C2 (amended): a menu step that terminates never lets an exception
escape, provided the store is non-empty or the selection is neither 3 nor
6; with an empty store those two selections are the only crashing ones. -/
theorem C2_menu_no_uncaught (store : List Shoe) (file : Str) (sel : Int)
    (sc : Script) (res : Except PyErr (List Shoe × Str))
    (hsafe : store ≠ [] ∨ (sel ≠ 3 ∧ sel ≠ 6))
    (h : menu_step store file sel sc = some res) :
    ∃ out, res = Except.ok out := by
  unfold menu_step at h
  cases hd : dispatch store file sel sc with
  | none =>
    rw [hd] at h
    dsimp only at h
    cases h
  | some r0 =>
    rw [hd] at h
    obtain ⟨out, hout⟩ := dispatch_ok hsafe hd
    subst hout
    dsimp only at h
    injection h with h
    exact ⟨out, h.symm⟩

/-- C2 witness: a declined restock on a one-shoe store completes without
an escaping exception. -/
theorem C2_menu_no_uncaught_witness :
    ∃ out, (Except.ok ([shoeA], ([] : Str)) :
      Except PyErr (List Shoe × Str)) = Except.ok out :=
  C2_menu_no_uncaught [shoeA] [] 3 ⟨[], [], "n".toList, []⟩
    (.ok ([shoeA], [])) (Or.inl (by decide)) (by decide)

/-- C3 counterexample: a store whose only record has a newline (but no
comma) inside its country field does not survive the write/reload round
trip: reloading the written file fails with an `IndexError` instead of
reproducing the store. -/
theorem C3_counterexample :
    (∀ s ∈ nlStore, ',' ∉ s.country ∧ ',' ∉ s.code ∧ ',' ∉ s.product) ∧
    read_shoes_data (some (write_inventory nlStore)) ≠ .ok nlStore := by
  refine ⟨by decide, by decide⟩

/-- C3 (amended): when every record's text fields contain no commas and no
newlines and the country does not start with whitespace, the store left by
a confirmed restock reloads from the written backing file to exactly the
in-memory store (same records, same order). -/
theorem C3_restock_roundtrip (store : List Shoe) (a : Int)
    (h : ∀ s ∈ store, CleanShoe s) :
    read_shoes_data (some (write_inventory (restock_apply store a))) =
      .ok (restock_apply store a) := by
  apply read_write_roundtrip
  intro s hs
  rcases restock_mem hs with hmem | ⟨j, low, hj, rfl⟩
  · exact h s hmem
  · exact h low (mem_of_getElem?_some (firstMinIdx_get hj))

/-- C3 witness: the round trip evaluated on `dupStore` after a restock
by 3. -/
theorem C3_restock_roundtrip_witness :
    read_shoes_data (some (write_inventory (restock_apply dupStore 3))) =
      .ok (restock_apply dupStore 3) :=
  C3_restock_roundtrip dupStore 3 (by decide)

/-- C4: loading a file made of a header line and N valid data lines (five
comma-separated fields, the fourth and fifth parsing as integers) yields
exactly the N records whose fields are the lines' fields in file order;
loading a missing file yields the empty store without failing. -/
theorem C4_load_valid_file :
    read_shoes_data none = .ok [] ∧
    ∀ header lines, '\n' ∉ header → (∀ l ∈ lines, '\n' ∉ l) →
      (∀ l ∈ lines, validDataLine l = true) →
      read_shoes_data (some (mkFile (header :: lines))) =
        .ok (lines.map lineShoe) ∧
      (lines.map lineShoe).length = lines.length := by
  refine ⟨rfl, ?_⟩
  intro header lines hh hln hv
  constructor
  · unfold read_shoes_data
    dsimp only
    rw [pyLines_mkFile (by
      intro l hl
      rcases List.mem_cons.mp hl with rfl | hl
      · exact hh
      · exact hln l hl)]
    dsimp only
    exact parseLines_of_valid hv
  · simp

/-- C4 witness: the loader evaluated on a one-line file. -/
theorem C4_load_valid_file_witness :
    read_shoes_data (some (mkFile
        [headerLine, "South Africa,SKU1001,Nike,1200,5".toList])) =
      .ok (["South Africa,SKU1001,Nike,1200,5".toList].map lineShoe) ∧
    (["South Africa,SKU1001,Nike,1200,5".toList].map lineShoe).length = 1 :=
  C4_load_valid_file.2 headerLine ["South Africa,SKU1001,Nike,1200,5".toList]
    (by decide) (by decide) (by decide)

/-- C5: in every terminating interactive add session, entering the cancel
sentinel at any of the five field prompts (which is exactly when
`captureCancelled` holds: one of the five prompt loops consumed the
sentinel) leaves the store entirely unchanged; and when no prompt was
cancelled, the session appends exactly one record all five of whose
fields passed their validators. -/
theorem C5_capture_cancel_or_append (store : List Shoe) (inputs : List Str)
    (res : List Shoe) (h : capture_shoes store inputs = some res) :
    (captureCancelled inputs = true → res = store) ∧
    (captureCancelled inputs = false →
      ∃ sh, res = store ++ [sh] ∧ ValidShoe sh) := by
  unfold capture_shoes at h
  cases h1 : promptField normText validTextF inputs with
  | none => rw [h1] at h; cases h
  | some fr1 =>
  rw [h1] at h
  cases fr1 with
  | cancelled =>
    have hcc : captureCancelled inputs = true := by
      unfold captureCancelled
      rw [h1]
    dsimp only at h
    injection h with h
    exact ⟨fun _ => h.symm, fun hcf => absurd (hcc.symm.trans hcf) (by decide)⟩
  | ok country rest1 =>
  dsimp only at h
  cases h2 : promptField normCode validCodeF rest1 with
  | none => rw [h2] at h; cases h
  | some fr2 =>
  rw [h2] at h
  cases fr2 with
  | cancelled =>
    have hcc : captureCancelled inputs = true := by
      unfold captureCancelled
      rw [h1]
      dsimp only
      rw [h2]
    dsimp only at h
    injection h with h
    exact ⟨fun _ => h.symm, fun hcf => absurd (hcc.symm.trans hcf) (by decide)⟩
  | ok code rest2 =>
  dsimp only at h
  cases h3 : promptField normText validTextF rest2 with
  | none => rw [h3] at h; cases h
  | some fr3 =>
  rw [h3] at h
  cases fr3 with
  | cancelled =>
    have hcc : captureCancelled inputs = true := by
      unfold captureCancelled
      rw [h1]
      dsimp only
      rw [h2]
      dsimp only
      rw [h3]
    dsimp only at h
    injection h with h
    exact ⟨fun _ => h.symm, fun hcf => absurd (hcc.symm.trans hcf) (by decide)⟩
  | ok product rest3 =>
  dsimp only at h
  cases h4 : promptField normNum validNumF rest3 with
  | none => rw [h4] at h; cases h
  | some fr4 =>
  rw [h4] at h
  cases fr4 with
  | cancelled =>
    have hcc : captureCancelled inputs = true := by
      unfold captureCancelled
      rw [h1]
      dsimp only
      rw [h2]
      dsimp only
      rw [h3]
      dsimp only
      rw [h4]
    dsimp only at h
    injection h with h
    exact ⟨fun _ => h.symm, fun hcf => absurd (hcc.symm.trans hcf) (by decide)⟩
  | ok cost rest4 =>
  dsimp only at h
  cases h5 : promptField normNum validNumF rest4 with
  | none => rw [h5] at h; cases h
  | some fr5 =>
  rw [h5] at h
  cases fr5 with
  | cancelled =>
    have hcc : captureCancelled inputs = true := by
      unfold captureCancelled
      rw [h1]
      dsimp only
      rw [h2]
      dsimp only
      rw [h3]
      dsimp only
      rw [h4]
      dsimp only
      rw [h5]
    dsimp only at h
    injection h with h
    exact ⟨fun _ => h.symm, fun hcf => absurd (hcc.symm.trans hcf) (by decide)⟩
  | ok quantity rest5 =>
  have hcc : captureCancelled inputs = false := by
    unfold captureCancelled
    rw [h1]
    dsimp only
    rw [h2]
    dsimp only
    rw [h3]
    dsimp only
    rw [h4]
    dsimp only
    rw [h5]
  dsimp only at h
  injection h with h
  refine ⟨fun hct => absurd (hcc.symm.trans hct) (by decide), fun _ =>
    ⟨⟨country, code, product, cost, quantity⟩, h.symm, ?_, ?_, ?_, ?_, ?_⟩⟩
  · obtain ⟨s1, hv1⟩ := promptField_ok h1
    exact validTextF_some hv1
  · obtain ⟨s2, hv2⟩ := promptField_ok h2
    exact validCodeF_some hv2
  · obtain ⟨s3, hv3⟩ := promptField_ok h3
    exact validTextF_some hv3
  · obtain ⟨s4, hv4⟩ := promptField_ok h4
    exact validNumF_nonneg hv4
  · obtain ⟨s5, hv5⟩ := promptField_ok h5
    exact validNumF_nonneg hv5

/-- C5 witness: entering the cancel sentinel at the second (code) prompt
leaves the one-shoe store unchanged, and an uncancelled five-field session
appends exactly the validated record. -/
theorem C5_capture_witness :
    capture_shoes [shoeA] ["ZA".toList, ['x']] = some [shoeA] ∧
    captureCancelled ["ZA".toList, ['x']] = true ∧
    [shoeA] = [shoeA] ∧
    (∃ sh, [(⟨"Za".toList, "SKU9".toList, "Nike".toList, 12, 3⟩ : Shoe)] =
      [] ++ [sh] ∧ ValidShoe sh) :=
  ⟨by decide, by decide,
    (C5_capture_cancel_or_append [shoeA] ["ZA".toList, ['x']] [shoeA]
      (by decide)).1 (by decide),
    (C5_capture_cancel_or_append []
      ["ZA".toList, "sku9".toList, "Nike".toList, "12".toList, "3".toList]
      [⟨"Za".toList, "SKU9".toList, "Nike".toList, 12, 3⟩]
      (by decide)).2 (by decide)⟩

/-- C6: if every record has non-negative cost and quantity, then after a
confirmed restock with a non-negative amount and after any successful add
every record still has non-negative cost and quantity. -/
theorem C6_nonneg_invariant (store : List Shoe)
    (hstore : ∀ s ∈ store, 0 ≤ s.cost ∧ 0 ≤ s.quantity) :
    (∀ a : Int, 0 ≤ a →
      ∀ s ∈ restock_apply store a, 0 ≤ s.cost ∧ 0 ≤ s.quantity) ∧
    (∀ inputs res, capture_shoes store inputs = some res →
      ∀ s ∈ res, 0 ≤ s.cost ∧ 0 ≤ s.quantity) := by
  constructor
  · intro a ha s hs
    rcases restock_mem hs with hmem | ⟨j, low, hj, rfl⟩
    · exact hstore s hmem
    · have hlow := hstore low (mem_of_getElem?_some (firstMinIdx_get hj))
      refine ⟨hlow.1, ?_⟩
      show 0 ≤ low.quantity + a
      have := hlow.2
      omega
  · intro inputs res h s hs
    rcases capture_shoes_spec h with rfl | ⟨sh, rfl, hv⟩
    · exact hstore s hs
    · rcases List.mem_append.mp hs with hs | hs
      · exact hstore s hs
      · simp only [List.mem_singleton] at hs
        subst hs
        exact ⟨hv.2.2.2.1, hv.2.2.2.2⟩

/-- C6 witness: the invariant applied to `qtyStore` with restock amount 3,
evaluated at the updated record. -/
theorem C6_nonneg_invariant_witness :
    0 ≤ (⟨"Peru".toList, "SKU3".toList, "Vans".toList, 4, 4⟩ : Shoe).cost ∧
    0 ≤ (⟨"Peru".toList, "SKU3".toList, "Vans".toList, 4, 4⟩ : Shoe).quantity :=
  (C6_nonneg_invariant qtyStore (by decide)).1 3 (by decide)
    ⟨"Peru".toList, "SKU3".toList, "Vans".toList, 4, 4⟩ (by decide)

/-- C7: on a non-empty store the restock selection (head of the stable
ascending sort) is the earliest record of minimal quantity and the
highest-quantity selection (head of the stable descending sort) is the
earliest record of maximal quantity; `find?` states the earliest-ness. -/
theorem C7_selection_min_max (store : List Shoe) (hne : store ≠ []) :
    ∃ lo hi, lowestPick store = some lo ∧ highestPick store = some hi ∧
      lo ∈ store ∧ hi ∈ store ∧
      (∀ s ∈ store, lo.quantity ≤ s.quantity ∧ s.quantity ≤ hi.quantity) ∧
      store.find? (fun s => s.quantity == lo.quantity) = some lo ∧
      store.find? (fun s => s.quantity == hi.quantity) = some hi := by
  obtain ⟨j, lo, hmin⟩ : ∃ j lo, firstMinIdx store = some (j, lo) := by
    cases hm : firstMinIdx store with
    | none => exact absurd (firstMinIdx_eq_none.mp hm) hne
    | some p =>
      obtain ⟨j, lo⟩ := p
      exact ⟨j, lo, rfl⟩
  obtain ⟨k, hi, hmax⟩ : ∃ k hi, firstMaxIdx store = some (k, hi) := by
    cases hm : firstMaxIdx store with
    | none => exact absurd (firstMaxIdx_eq_none.mp hm) hne
    | some p =>
      obtain ⟨k, hi⟩ := p
      exact ⟨k, hi, rfl⟩
  refine ⟨lo, hi, ?_, ?_, ?_, ?_, ?_, ?_, ?_⟩
  · rw [lowestPick_eq, hmin]
    rfl
  · rw [highestPick_eq, hmax]
    rfl
  · exact mem_of_getElem?_some (firstMinIdx_get hmin)
  · exact List.mem_of_find?_eq_some (firstMaxIdx_find hmax)
  · intro s hs
    exact ⟨firstMinIdx_min hmin s hs, firstMaxIdx_max hmax s hs⟩
  · exact firstMinIdx_find hmin
  · exact firstMaxIdx_find hmax

/-- C7 witness: on quantities `[5, 1, 9, 9]` the lowest pick is the
quantity-1 record and the highest pick is the first quantity-9 record. -/
theorem C7_selection_witness :
    lowestPick qtyStore =
      some ⟨"Peru".toList, "SKU3".toList, "Vans".toList, 4, 1⟩ ∧
    highestPick qtyStore =
      some ⟨"Ghana".toList, "SKU4".toList, "Fila".toList, 6, 9⟩ ∧
    (∃ lo hi, lowestPick qtyStore = some lo ∧ highestPick qtyStore = some hi ∧
      lo ∈ qtyStore ∧ hi ∈ qtyStore ∧
      (∀ s ∈ qtyStore, lo.quantity ≤ s.quantity ∧ s.quantity ≤ hi.quantity) ∧
      qtyStore.find? (fun s => s.quantity == lo.quantity) = some lo ∧
      qtyStore.find? (fun s => s.quantity == hi.quantity) = some hi) :=
  ⟨by decide, by decide, C7_selection_min_max qtyStore (by decide)⟩

/-- C8 counterexample: search strips the input before uppercasing, so for
the entered string " sku1 " it returns `shoeA` even though no code equals
the merely-uppercased input; and searching for the code of the existing
record `shoeB` returns the earlier duplicate `shoeA`, not `shoeB`. -/
theorem C8_counterexample :
    search_shoe dupStore " sku1 ".toList = some shoeA ∧
    shoeA.code ≠ pyUpper " sku1 ".toList ∧
    search_shoe dupStore shoeB.code = some shoeA ∧
    shoeA ≠ shoeB := by
  refine ⟨by decide, by decide, by decide, by decide⟩

/-- C8 (amended): search strips and uppercases the entered code and
returns the first record (in store order) whose code equals the
normalized input; it reports not-found exactly when no record's code
equals it; and searching for an existing record's code (already in
stripped-uppercase form) finds the first record bearing that code. -/
theorem C8_search_spec (store : List Shoe) (inp : Str) :
    (search_shoe store inp = none ↔
      ∀ r ∈ store, r.code ≠ pyUpper (pyStrip inp)) ∧
    (∀ r, search_shoe store inp = some r →
      ∃ i, ∃ hlt : i < store.length, store.get ⟨i, hlt⟩ = r ∧
        r.code = pyUpper (pyStrip inp) ∧
        ∀ k (hk : k < store.length), k < i →
          (store.get ⟨k, hk⟩).code ≠ pyUpper (pyStrip inp)) ∧
    (∀ r ∈ store, pyUpper (pyStrip r.code) = r.code →
      ∃ r', search_shoe store r.code = some r' ∧ r'.code = r.code) := by
  refine ⟨?_, ?_, ?_⟩
  · unfold search_shoe
    rw [List.find?_eq_none]
    constructor
    · intro hfn r hr heq
      exact hfn r hr (by simp [heq])
    · intro hall r hr hbeq
      exact hall r hr (beq_iff_eq.mp hbeq).symm
  · intro r hfind
    obtain ⟨i, hlt, hget, hp, hbef⟩ := find?_first hfind
    refine ⟨i, hlt, hget, (beq_iff_eq.mp hp).symm, ?_⟩
    intro k hk hki heq
    have hfalse := hbef k hk hki
    rw [heq] at hfalse
    simp at hfalse
  · intro r hr hnorm
    unfold search_shoe
    rw [hnorm]
    have hsome : (store.find? (fun s => r.code == s.code)).isSome :=
      List.find?_isSome.mpr ⟨r, hr, by simp⟩
    obtain ⟨r', hr'⟩ := Option.isSome_iff_exists.mp hsome
    refine ⟨r', hr', ?_⟩
    have hp := List.find?_some hr'
    simp only [beq_iff_eq] at hp
    exact hp.symm

/-- C8 witness: searching `dupStore` for the exact code `SKU1` finds a
record bearing that code. -/
theorem C8_search_spec_witness :
    ∃ r', search_shoe dupStore shoeA.code = some r' ∧ r'.code = shoeA.code :=
  (C8_search_spec dupStore shoeA.code).2.2 shoeA (by decide) (by decide)

/-- C9: on a non-empty store the restock confirmation accepts exactly the
inputs whose stripped uppercased form is "Y": any other confirmation input
declines with the store and the backing file unchanged (and no re-prompt,
since the result is immediate), while an accepted confirmation followed by
a validated amount applies the restock and rewrites the file. -/
theorem C9_confirm_exactly_Y (store : List Shoe) (file : Str)
    (confirm : Str) (amounts : List Str) (hne : store ≠ []) :
    (pyUpper (pyStrip confirm) ≠ ['Y'] →
      re_stock store file confirm amounts = some (.ok (store, file))) ∧
    (∀ a : Int, pyUpper (pyStrip confirm) = ['Y'] →
      restockAmountLoop amounts = some (some a) →
      re_stock store file confirm amounts =
        some (.ok (restock_apply store a,
          write_inventory (restock_apply store a)))) := by
  have hemp : ¬ store.isEmpty = true := fun hh => hne (List.isEmpty_iff.mp hh)
  constructor
  · intro hy
    unfold re_stock
    rw [if_neg hemp, if_neg hy]
  · intro a hy hl
    unfold re_stock
    rw [if_neg hemp, if_pos hy, hl]

/-- C9 witness: the confirmation input "yes" declines (store and file
unchanged), while " y " with amount 5 confirms and rewrites. -/
theorem C9_confirm_witness :
    re_stock [shoeA] "F".toList "yes".toList [] =
      some (.ok ([shoeA], "F".toList)) ∧
    re_stock [shoeA] "F".toList " y ".toList ["5".toList] =
      some (.ok (restock_apply [shoeA] 5,
        write_inventory (restock_apply [shoeA] 5))) :=
  ⟨(C9_confirm_exactly_Y [shoeA] "F".toList "yes".toList []
      (by decide)).1 (by decide),
   (C9_confirm_exactly_Y [shoeA] "F".toList " y ".toList ["5".toList]
      (by decide)).2 5 (by decide) (by decide)⟩

/-- C10: the loader fails (raises) on any existing file that contains,
after the header, a data line with fewer than five comma-separated fields
or whose fourth or fifth field does not parse as an integer; and a line
with five or more fields whose fourth and fifth parse is accepted with the
fields beyond the fifth dropped. -/
theorem C10_loader_strictness :
    (∀ header lines, '\n' ∉ header → (∀ l ∈ lines, '\n' ∉ l) →
      (∃ l ∈ lines,
        (splitOnChar ',' (pyStrip l)).length < 5 ∨
        pyInt? ((splitOnChar ',' (pyStrip l)).getD 3 []) = none ∨
        pyInt? ((splitOnChar ',' (pyStrip l)).getD 4 []) = none) →
      ∃ e, read_shoes_data (some (mkFile (header :: lines))) = .error e) ∧
    (∀ l a b c d e ts n3 n4,
      splitOnChar ',' (pyStrip l) = a :: b :: c :: d :: e :: ts →
      pyInt? d = some n3 → pyInt? e = some n4 →
      parseLine l = .ok ⟨a, b, c, n3, n4⟩) := by
  constructor
  · intro header lines hh hln hbad
    obtain ⟨l, hmem, hl⟩ := hbad
    unfold read_shoes_data
    dsimp only
    rw [pyLines_mkFile (by
      intro x hx
      rcases List.mem_cons.mp hx with rfl | hx
      · exact hh
      · exact hln x hx)]
    dsimp only
    exact parseLines_error_of_mem hmem (parseLine_error_of_bad hl)
  · intro l a b c d e ts n3 n4 hfs h3 h4
    exact parseLine_of_fields hfs h3 h4

/-- C10 witness: a two-field data line makes the load fail, and a six-field
line is accepted with the sixth field dropped. -/
theorem C10_loader_strictness_witness :
    (∃ e, read_shoes_data (some (mkFile [headerLine, "a,b".toList])) =
      .error e) ∧
    parseLine "x,y,z,7,8,extra".toList =
      .ok ⟨"x".toList, "y".toList, "z".toList, 7, 8⟩ :=
  ⟨C10_loader_strictness.1 headerLine ["a,b".toList] (by decide) (by decide)
      ⟨"a,b".toList, by decide, by decide⟩,
   C10_loader_strictness.2 "x,y,z,7,8,extra".toList "x".toList "y".toList
      "z".toList "7".toList "8".toList ["extra".toList] 7 8
      (by decide) (by decide) (by decide)⟩
